import Mathlib

/- Shallow embedding of the blackjack-tui core (src/widgets.rs and the round
controller in src/main.rs).  The RNG behind `thread_rng`/`shuffle` is outside
the model: wherever the source builds a freshly shuffled deck (`Deck::new`),
the model takes the shuffled list as an explicit parameter, constrained where
needed to be a permutation of the canonical `NEW_DECK`.  The source's `u8`
values are modelled as `Nat`; no value the program computes approaches 256. -/

namespace Blackjack

/-- Card suits (`enum Suit` in widgets.rs). -/
inductive Suit where
  | Spade
  | Club
  | Diamond
  | Heart
  deriving DecidableEq, Repr, Fintype

/-- Card ranks (`enum Rank` in widgets.rs). -/
inductive Rank where
  | Two
  | Three
  | Four
  | Five
  | Six
  | Seven
  | Eight
  | Nine
  | Ten
  | Jack
  | Queen
  | King
  | Ace
  deriving DecidableEq, Repr, Fintype

/-- Point value of a rank (`Rank::get_value`). -/
def Rank.get_value : Rank → Nat
  | .Two => 2
  | .Three => 3
  | .Four => 4
  | .Five => 5
  | .Six => 6
  | .Seven => 7
  | .Eight => 8
  | .Nine => 9
  | .Ten => 10
  | .Jack => 10
  | .Queen => 10
  | .King => 10
  | .Ace => 11

/-- A playing card (`struct Card(Rank, Suit)`). -/
structure Card where
  rank : Rank
  suit : Suit
  deriving DecidableEq, Repr, Fintype

/-- The canonical ordered 52-card deck (`const NEW_DECK` in widgets.rs). -/
def NEW_DECK : List Card := [
  ⟨.Two, .Spade⟩, ⟨.Three, .Spade⟩, ⟨.Four, .Spade⟩, ⟨.Five, .Spade⟩,
  ⟨.Six, .Spade⟩, ⟨.Seven, .Spade⟩, ⟨.Eight, .Spade⟩, ⟨.Nine, .Spade⟩,
  ⟨.Ten, .Spade⟩, ⟨.Jack, .Spade⟩, ⟨.Queen, .Spade⟩, ⟨.King, .Spade⟩,
  ⟨.Ace, .Spade⟩,
  ⟨.Two, .Club⟩, ⟨.Three, .Club⟩, ⟨.Four, .Club⟩, ⟨.Five, .Club⟩,
  ⟨.Six, .Club⟩, ⟨.Seven, .Club⟩, ⟨.Eight, .Club⟩, ⟨.Nine, .Club⟩,
  ⟨.Ten, .Club⟩, ⟨.Jack, .Club⟩, ⟨.Queen, .Club⟩, ⟨.King, .Club⟩,
  ⟨.Ace, .Club⟩,
  ⟨.Two, .Diamond⟩, ⟨.Three, .Diamond⟩, ⟨.Four, .Diamond⟩, ⟨.Five, .Diamond⟩,
  ⟨.Six, .Diamond⟩, ⟨.Seven, .Diamond⟩, ⟨.Eight, .Diamond⟩, ⟨.Nine, .Diamond⟩,
  ⟨.Ten, .Diamond⟩, ⟨.Jack, .Diamond⟩, ⟨.Queen, .Diamond⟩, ⟨.King, .Diamond⟩,
  ⟨.Ace, .Diamond⟩,
  ⟨.Two, .Heart⟩, ⟨.Three, .Heart⟩, ⟨.Four, .Heart⟩, ⟨.Five, .Heart⟩,
  ⟨.Six, .Heart⟩, ⟨.Seven, .Heart⟩, ⟨.Eight, .Heart⟩, ⟨.Nine, .Heart⟩,
  ⟨.Ten, .Heart⟩, ⟨.Jack, .Heart⟩, ⟨.Queen, .Heart⟩, ⟨.King, .Heart⟩,
  ⟨.Ace, .Heart⟩]

/-- Hand status (`enum HandStatus` in widgets.rs). -/
inductive HandStatus where
  | Active
  | Hold
  | Revealed
  deriving DecidableEq, Repr

/-- A hand (`struct Hand<T>(Vec<Card>, HandStatus, PhantomData<T>)`).  The
phantom role parameter only selects which methods exist in the source and does
not affect the data, so it is dropped here. -/
structure Hand where
  cards : List Card
  status : HandStatus
  deriving DecidableEq, Repr

/-- `Hand::new`: a fresh two-card hand, status Active. -/
def Hand.new (c1 c2 : Card) : Hand := ⟨[c1, c2], HandStatus.Active⟩

/-- `Hand::count_value`: sum the values of the non-ace cards, then fold the
aces on top of that sum, each ace adding its nominal 11 unless that pushes the
running total past 21, in which case it adds 1. -/
def Hand.count_value (h : Hand) : Nat :=
  let val := (h.cards.filter fun c => !(c.rank == Rank.Ace)).foldl
    (fun acc c => acc + c.rank.get_value) 0
  (h.cards.filter fun c => c.rank == Rank.Ace).foldl
    (fun acc c => if acc + c.rank.get_value > 21 then acc + 1 else acc + c.rank.get_value)
    val

/-- `Hand::is_bust`: value strictly above 21. -/
def Hand.is_bust (h : Hand) : Bool := h.count_value > 21

/-- `Hand::is_active`: status is Active. -/
def Hand.is_active (h : Hand) : Bool := h.status == HandStatus.Active

/-- `Hand::hold`: set the status to Hold. -/
def Hand.hold (h : Hand) : Hand := ⟨h.cards, HandStatus.Hold⟩

/-- `Hand::<Dealer>::reveal`: set the status to Revealed. -/
def Hand.reveal (h : Hand) : Hand := ⟨h.cards, HandStatus.Revealed⟩

/-- `Deck::draw`: pop the last card; on an empty deck first replace the deck
by a freshly shuffled full deck and pop that.  The shuffled replacement
`fresh` (the result of `Deck::new`) is a parameter, the RNG being outside the
model; `none` corresponds to the source's `.unwrap()` panic, proved
unreachable below for any `fresh` that permutes `NEW_DECK`. -/
def Deck.draw (fresh d : List Card) : Option (Card × List Card) :=
  match d.getLast? with
  | some c => some (c, d.dropLast)
  | none =>
    match fresh.getLast? with
    | some c => some (c, fresh.dropLast)
    | none => none

/-- `Deck::new_hand`: draw two cards and build a hand from them, the first
draw becoming the first card.  Each draw carries its own reshuffle
parameter. -/
def Deck.new_hand (f1 f2 d : List Card) : Option (Hand × List Card) :=
  match Deck.draw f1 d with
  | none => none
  | some (c1, d1) =>
    match Deck.draw f2 d1 with
    | none => none
    | some (c2, d2) => some (Hand.new c1 c2, d2)

/-- `Hand::hit`: push one drawn card onto the end of the hand. -/
def Hand.hit (fresh : List Card) (h : Hand) (d : List Card) :
    Option (Hand × List Card) :=
  match Deck.draw fresh d with
  | none => none
  | some (c, d') => some (⟨h.cards ++ [c], h.status⟩, d')

/-- `Hand::<Dealer>::do_dealer_action`: hit below 16, otherwise hold. -/
def Hand.do_dealer_action (fresh : List Card) (h : Hand) (d : List Card) :
    Option (Hand × List Card) :=
  if h.count_value < 16 then Hand.hit fresh h d
  else some (Hand.hold h, d)

/-- Round outcome (`enum HandResult` in main.rs). -/
inductive HandResult where
  | PlayerWin
  | DealerWin
  | Push
  | Bust
  deriving DecidableEq, Repr

/-- Round state (`enum GameState` in main.rs). -/
inductive GameState where
  | PlayingHand
  | HandScoreScreen (r : HandResult)
  deriving DecidableEq, Repr

/-- The `matches!(game_state, GameState::HandScoreScreen(_))` test of
check_hand. -/
def GameState.isScoreScreen : GameState → Bool
  | .HandScoreScreen _ => true
  | .PlayingHand => false

/-- `check_hand` from main.rs: the end-condition evaluation.  It first tries
the value comparison (guarded by player not bust, player not Active, dealer
not Active), then the player-bust case, then the dealer-bust case, otherwise
leaves the state unchanged; whenever the resulting state is a score screen it
reveals the dealer hand.  Returns the (possibly revealed) dealer hand and the
new game state. -/
def check_hand (player dealer : Hand) (gs : GameState) : Hand × GameState :=
  let gs' :=
    if !player.is_bust && !player.is_active && !dealer.is_active then
      GameState.HandScoreScreen
        (match compare player.count_value dealer.count_value with
          | Ordering.lt => HandResult.DealerWin
          | Ordering.eq => HandResult.Push
          | Ordering.gt => HandResult.PlayerWin)
    else if player.is_bust then
      GameState.HandScoreScreen HandResult.Bust
    else if dealer.is_bust then
      GameState.HandScoreScreen HandResult.PlayerWin
    else gs
  ((if gs'.isScoreScreen then Hand.reveal dealer else dealer), gs')

/-- The '1' (Hit) key branch of `run_as_tui`: the player hand hits once, the
dealer takes exactly one policy step, then the end condition is evaluated.
`f1` and `f2` are the reshuffle parameters of the two potential draws. -/
def hit_action (f1 f2 : List Card) (p dl : Hand) (dk : List Card)
    (gs : GameState) : Option (Hand × Hand × List Card × GameState) :=
  match Hand.hit f1 p dk with
  | none => none
  | some (p', dk1) =>
    match Hand.do_dealer_action f2 dl dk1 with
    | none => none
    | some (dl1, dk2) =>
      let r := check_hand p' dl1 gs
      some (p', r.1, dk2, r.2)

/-- The dealer auto-play loop of the '2' (Hold) branch: while the dealer hand
is Active and not bust, take one policy step and re-evaluate the end
condition.  One reshuffle parameter is supplied per iteration; `none` means
the supply `fs` ran out before the loop finished (never the case in the
theorems below, which pick `fs` long enough). -/
def hold_loop (player : Hand) :
    List (List Card) → Hand → List Card → GameState →
      Option (Hand × List Card × GameState)
  | [], dealer, dk, gs =>
    if dealer.is_active && !dealer.is_bust then none else some (dealer, dk, gs)
  | f :: fs, dealer, dk, gs =>
    if dealer.is_active && !dealer.is_bust then
      match Hand.do_dealer_action f dealer dk with
      | none => none
      | some (dl1, dk1) =>
        let r := check_hand player dl1 gs
        hold_loop player fs r.1 dk1 r.2
    else some (dealer, dk, gs)

/-- The '2' (Hold) key branch of `run_as_tui`: the player hand holds, the
dealer loop runs, and then `check_hand` is called once more, unconditionally,
after the loop. -/
def hold_action (fs : List (List Card)) (p dl : Hand) (dk : List Card)
    (gs : GameState) : Option (Hand × Hand × List Card × GameState) :=
  let player' := Hand.hold p
  match hold_loop player' fs dl dk gs with
  | none => none
  | some (dlm, dkm, gs1) =>
    let r := check_hand player' dlm gs1
    some (player', r.1, dkm, r.2)

/-- Drawing `n` cards in sequence, discarding the cards; used to state the
deck-exhaustion property.  All draws share the reshuffle parameter, which is
only consulted if some draw hits an empty deck. -/
def drawN (fresh : List Card) : Nat → List Card → Option (List Card)
  | 0, d => some d
  | n + 1, d =>
    match Deck.draw fresh d with
    | none => none
    | some (_, d') => drawN fresh n d'

/-- Deck states reachable in the program: a deck starts as a shuffled full
deck (`Deck::new`) and is only ever mutated by `Deck::draw` (every reshuffle
parameter again a shuffled full deck). -/
inductive DeckReach : List Card → Prop
  | new (d : List Card) : d.Perm NEW_DECK → DeckReach d
  | draw (d fresh : List Card) (c : Card) (d' : List Card) :
      DeckReach d → fresh.Perm NEW_DECK →
      Deck.draw fresh d = some (c, d') → DeckReach d'

/-- The full state the round controller owns: both hands, the deck and the
game state. -/
structure RoundState where
  player : Hand
  dealer : Hand
  deck : List Card
  gs : GameState
  deriving DecidableEq, Repr

/-- States reachable by the round state machine of `run_as_tui`: the initial
deal, the Hit branch, the Hold branch, and starting a new round from the
score screen.  Reshuffle parameters are arbitrary lists, so the relation
covers every RNG behaviour. -/
inductive Reach : RoundState → Prop
  | init (d0 f1 f2 f3 f4 : List Card) (p dl : Hand) (d1 d2 : List Card) :
      d0.Perm NEW_DECK →
      Deck.new_hand f1 f2 d0 = some (p, d1) →
      Deck.new_hand f3 f4 d1 = some (dl, d2) →
      Reach ⟨p, dl, d2, GameState.PlayingHand⟩
  | hit (s : RoundState) (f1 f2 : List Card) (p dl : Hand) (dk : List Card)
      (gs : GameState) :
      Reach s → s.gs = GameState.PlayingHand →
      hit_action f1 f2 s.player s.dealer s.deck s.gs = some (p, dl, dk, gs) →
      Reach ⟨p, dl, dk, gs⟩
  | hold (s : RoundState) (fs : List (List Card)) (p dl : Hand)
      (dk : List Card) (gs : GameState) :
      Reach s → s.gs = GameState.PlayingHand →
      hold_action fs s.player s.dealer s.deck s.gs = some (p, dl, dk, gs) →
      Reach ⟨p, dl, dk, gs⟩
  | new_round (s : RoundState) (r : HandResult) (f1 f2 f3 f4 : List Card)
      (p dl : Hand) (d1 d2 : List Card) :
      Reach s → s.gs = GameState.HandScoreScreen r →
      Deck.new_hand f1 f2 s.deck = some (p, d1) →
      Deck.new_hand f3 f4 d1 = some (dl, d2) →
      Reach ⟨p, dl, d2, GameState.PlayingHand⟩

/-- Sum of the non-ace card values of a list: the first fold inside
`count_value`. -/
def baseSum (cs : List Card) : Nat :=
  (cs.filter fun c => !(c.rank == Rank.Ace)).foldl
    (fun acc c => acc + c.rank.get_value) 0

/-- Number of aces in a list of cards. -/
def aceCount (cs : List Card) : Nat :=
  (cs.filter fun c => c.rank == Rank.Ace).length

theorem getLast?_some_of_ne_nil :
    ∀ (l : List Card), l ≠ [] → ∃ c, l.getLast? = some c
  | [], h => absurd rfl h
  | [a], _ => ⟨a, rfl⟩
  | a :: b :: t, _ => by
    obtain ⟨c, hc⟩ := getLast?_some_of_ne_nil (b :: t) (by simp)
    exact ⟨c, by rw [List.getLast?_cons_cons, hc]⟩

theorem draw_total (fresh d : List Card) (hf : fresh ≠ []) :
    ∃ c d', Deck.draw fresh d = some (c, d') := by
  unfold Deck.draw
  cases hd : d.getLast? with
  | some c => exact ⟨c, d.dropLast, rfl⟩
  | none =>
    obtain ⟨c, hc⟩ := getLast?_some_of_ne_nil fresh hf
    rw [hc]
    exact ⟨c, fresh.dropLast, rfl⟩

theorem aceFold_char :
    ∀ (l : List Card), (∀ c ∈ l, c.rank = Rank.Ace) → ∀ b : Nat,
      l.foldl
          (fun acc c =>
            if acc + c.rank.get_value > 21 then acc + 1 else acc + c.rank.get_value) b
        = b + l.length + (if 1 ≤ l.length ∧ b ≤ 10 then 10 else 0)
  | [], _, b => by simp
  | c :: t, hl, b => by
    have hc : c.rank = Rank.Ace := hl c (List.mem_cons_self c t)
    have ih := aceFold_char t (fun x hx => hl x (List.mem_cons_of_mem c hx))
    rw [List.foldl_cons, ih]
    have hv : c.rank.get_value = 11 := by rw [hc]; rfl
    simp only [hv, List.length_cons]
    split_ifs <;> omega

theorem count_value_eq (h : Hand) :
    h.count_value
      = baseSum h.cards + aceCount h.cards
        + (if 1 ≤ aceCount h.cards ∧ baseSum h.cards ≤ 10 then 10 else 0) := by
  have hl : ∀ c ∈ h.cards.filter (fun c => c.rank == Rank.Ace), c.rank = Rank.Ace := by
    intro c hcm
    exact eq_of_beq (List.mem_filter.mp hcm).2
  exact aceFold_char (h.cards.filter fun c => c.rank == Rank.Ace) hl (baseSum h.cards)

theorem baseSum_append (cs : List Card) (c : Card) :
    baseSum (cs ++ [c])
      = baseSum cs + (if c.rank = Rank.Ace then 0 else c.rank.get_value) := by
  unfold baseSum
  rw [List.filter_append, List.foldl_append]
  by_cases h : c.rank = Rank.Ace
  · simp [List.filter_cons, h]
  · simp [List.filter_cons, h]

theorem aceCount_append (cs : List Card) (c : Card) :
    aceCount (cs ++ [c]) = aceCount cs + (if c.rank = Rank.Ace then 1 else 0) := by
  unfold aceCount
  rw [List.filter_append, List.length_append]
  by_cases h : c.rank = Rank.Ace <;> simp [List.filter_cons, h]

theorem get_value_bounds (r : Rank) :
    (r = Rank.Ace ∧ r.get_value = 11) ∨
      (r ≠ Rank.Ace ∧ 2 ≤ r.get_value ∧ r.get_value ≤ 10) := by
  cases r <;> simp [Rank.get_value]

theorem hit_inv (fresh : List Card) (h : Hand) (d : List Card) (h' : Hand)
    (d' : List Card) (heq : Hand.hit fresh h d = some (h', d')) :
    ∃ c, Deck.draw fresh d = some (c, d') ∧ h' = ⟨h.cards ++ [c], h.status⟩ := by
  unfold Hand.hit at heq
  cases hdr : Deck.draw fresh d with
  | none => rw [hdr] at heq; cases heq
  | some r =>
    obtain ⟨c, dd⟩ := r
    rw [hdr] at heq
    simp only [Option.some.injEq, Prod.mk.injEq] at heq
    obtain ⟨h1, h2⟩ := heq
    exact ⟨c, by rw [h2], h1.symm⟩

/-- C2: count_value sums the fixed point values of all non-Ace cards, then
for each Ace adds 11 if the running total stays at most 21 and 1 otherwise;
on the spec's example hands it gives Ace+Ace = 12, Ace+King = 21,
Ace+Ace+Nine = 21 and Ten+King = 20. -/
theorem count_value_examples :
    Hand.count_value ⟨[⟨.Ace, .Spade⟩, ⟨.Ace, .Club⟩], .Active⟩ = 12 ∧
    Hand.count_value ⟨[⟨.Ace, .Spade⟩, ⟨.King, .Spade⟩], .Active⟩ = 21 ∧
    Hand.count_value ⟨[⟨.Ace, .Spade⟩, ⟨.Ace, .Club⟩, ⟨.Nine, .Spade⟩], .Active⟩ = 21 ∧
    Hand.count_value ⟨[⟨.Ten, .Spade⟩, ⟨.King, .Spade⟩], .Active⟩ = 20 :=
  ⟨rfl, rfl, rfl, rfl⟩

/-- C3 counterexample: hitting the hand Nine+Ace (value 20, soft ace) with a
Two yields Nine+Ace+Two of value 12 — appending a drawn card CAN decrease
count_value, refuting the claim as stated. -/
theorem hit_can_decrease_value :
    Hand.hit [] ⟨[⟨.Nine, .Spade⟩, ⟨.Ace, .Spade⟩], .Active⟩ [⟨.Two, .Spade⟩]
        = some (⟨[⟨.Nine, .Spade⟩, ⟨.Ace, .Spade⟩, ⟨.Two, .Spade⟩], .Active⟩, []) ∧
    Hand.count_value ⟨[⟨.Nine, .Spade⟩, ⟨.Ace, .Spade⟩, ⟨.Two, .Spade⟩], .Active⟩
        < Hand.count_value ⟨[⟨.Nine, .Spade⟩, ⟨.Ace, .Spade⟩], .Active⟩ :=
  ⟨rfl, by decide⟩

/-- C3 (amended): a hit can decrease count_value when a soft ace is forced
hard, but by at most 8; and the hand's hard total (non-ace sum plus number of
aces) strictly increases with every hit, which is what bounds the Hold dealer
auto-play loop. -/
theorem hit_value_drop_bounded (fresh : List Card) (h : Hand) (d : List Card)
    (h' : Hand) (d' : List Card) (heq : Hand.hit fresh h d = some (h', d')) :
    h.count_value ≤ h'.count_value + 8 ∧
      baseSum h.cards + aceCount h.cards < baseSum h'.cards + aceCount h'.cards := by
  obtain ⟨c, _, hcards⟩ := hit_inv fresh h d h' d' heq
  have hc2 : h'.cards = h.cards ++ [c] := by rw [hcards]
  rw [count_value_eq h', count_value_eq h, hc2, baseSum_append, aceCount_append]
  rcases get_value_bounds c.rank with ⟨hace, _⟩ | ⟨hnace, hv1, hv2⟩
  · rw [if_pos hace, if_pos hace]
    constructor
    · split_ifs <;> omega
    · omega
  · rw [if_neg hnace, if_neg hnace]
    constructor
    · split_ifs <;> omega
    · omega

theorem hit_value_drop_bounded_witness :
    Hand.count_value ⟨[⟨.Nine, .Spade⟩, ⟨.Ace, .Spade⟩], .Active⟩
      ≤ Hand.count_value ⟨[⟨.Nine, .Spade⟩, ⟨.Ace, .Spade⟩, ⟨.Two, .Spade⟩], .Active⟩ + 8 :=
  (hit_value_drop_bounded [] ⟨[⟨.Nine, .Spade⟩, ⟨.Ace, .Spade⟩], .Active⟩
    [⟨.Two, .Spade⟩] ⟨[⟨.Nine, .Spade⟩, ⟨.Ace, .Spade⟩, ⟨.Two, .Spade⟩], .Active⟩ []
    (by decide)).1

theorem perm_new_deck_ne_nil (fresh : List Card) (hfresh : fresh.Perm NEW_DECK) :
    fresh ≠ [] := by
  intro hnil
  subst hnil
  exact absurd hfresh.length_eq (by decide)

theorem draw_pop (fresh d : List Card) (c : Card) (hc : d.getLast? = some c) :
    Deck.draw fresh d = some (c, d.dropLast) := by
  unfold Deck.draw
  rw [hc]

theorem draw_inv (fresh d : List Card) (c : Card) (d' : List Card)
    (heq : Deck.draw fresh d = some (c, d')) :
    d' = d.dropLast ∨ (d = [] ∧ d' = fresh.dropLast) := by
  unfold Deck.draw at heq
  cases hd : d.getLast? with
  | some c2 =>
    rw [hd] at heq
    simp only [Option.some.injEq, Prod.mk.injEq] at heq
    exact Or.inl heq.2.symm
  | none =>
    rw [hd] at heq
    cases hfr : fresh.getLast? with
    | none => rw [hfr] at heq; cases heq
    | some c3 =>
      rw [hfr] at heq
      simp only [Option.some.injEq, Prod.mk.injEq] at heq
      refine Or.inr ⟨?_, heq.2.symm⟩
      by_contra hne
      obtain ⟨x, hx⟩ := getLast?_some_of_ne_nil d hne
      rw [hx] at hd
      cases hd

theorem drawN_length (fresh : List Card) :
    ∀ (n : Nat) (d : List Card), d.length = n → drawN fresh n d = some [] := by
  intro n
  induction n with
  | zero =>
    intro d hd
    rw [List.length_eq_zero] at hd
    subst hd
    rfl
  | succ n ih =>
    intro d hd
    have hne : d ≠ [] := by intro h; subst h; simp at hd
    obtain ⟨c, hc⟩ := getLast?_some_of_ne_nil d hne
    have hdraw := draw_pop fresh d c hc
    unfold drawN
    rw [hdraw]
    exact ih d.dropLast (by rw [List.length_dropLast, hd]; omega)

theorem new_hand_inv (f1 f2 d : List Card) (h : Hand) (d' : List Card)
    (heq : Deck.new_hand f1 f2 d = some (h, d')) :
    ∃ c1 c2 d1, Deck.draw f1 d = some (c1, d1) ∧
      Deck.draw f2 d1 = some (c2, d') ∧ h = Hand.new c1 c2 := by
  unfold Deck.new_hand at heq
  cases h1 : Deck.draw f1 d with
  | none => rw [h1] at heq; cases heq
  | some r1 =>
    obtain ⟨c1, d1⟩ := r1
    rw [h1] at heq
    dsimp only at heq
    cases h2 : Deck.draw f2 d1 with
    | none => rw [h2] at heq; cases heq
    | some r2 =>
      obtain ⟨c2, d2⟩ := r2
      rw [h2] at heq
      simp only [Option.some.injEq, Prod.mk.injEq] at heq
      exact ⟨c1, c2, d1, rfl, by rw [h2, heq.2], heq.1.symm⟩

theorem hit_action_inv (f1 f2 : List Card) (p dl : Hand) (dk : List Card)
    (gs : GameState) (p' dl' : Hand) (dk' : List Card) (gs' : GameState)
    (heq : hit_action f1 f2 p dl dk gs = some (p', dl', dk', gs')) :
    ∃ c dk1 dlm dk2,
      Deck.draw f1 dk = some (c, dk1) ∧
      p' = ⟨p.cards ++ [c], p.status⟩ ∧
      Hand.do_dealer_action f2 dl dk1 = some (dlm, dk2) ∧
      dk' = dk2 ∧ dl' = (check_hand p' dlm gs).1 ∧
      gs' = (check_hand p' dlm gs).2 := by
  unfold hit_action at heq
  cases h1 : Hand.hit f1 p dk with
  | none => rw [h1] at heq; cases heq
  | some r1 =>
    obtain ⟨p1, dk1⟩ := r1
    rw [h1] at heq
    dsimp only at heq
    cases h2 : Hand.do_dealer_action f2 dl dk1 with
    | none => rw [h2] at heq; cases heq
    | some r2 =>
      obtain ⟨dl1, dk2⟩ := r2
      rw [h2] at heq
      simp only [Option.some.injEq, Prod.mk.injEq] at heq
      obtain ⟨hp, hdl, hdk, hgs⟩ := heq
      obtain ⟨c, hdr, hps⟩ := hit_inv f1 p dk p1 dk1 h1
      subst hp
      exact ⟨c, dk1, dl1, dk2, hdr, hps, h2, hdk.symm, hdl.symm, hgs.symm⟩

theorem hold_action_inv (fs : List (List Card)) (p dl : Hand) (dk : List Card)
    (gs : GameState) (p' dl' : Hand) (dk' : List Card) (gs' : GameState)
    (heq : hold_action fs p dl dk gs = some (p', dl', dk', gs')) :
    p' = Hand.hold p ∧ ∃ dlm gs1,
      dl' = (check_hand (Hand.hold p) dlm gs1).1 ∧
      gs' = (check_hand (Hand.hold p) dlm gs1).2 := by
  unfold hold_action at heq
  dsimp only at heq
  cases h1 : hold_loop (Hand.hold p) fs dl dk gs with
  | none => rw [h1] at heq; cases heq
  | some r =>
    obtain ⟨dlm, dkm, gs1⟩ := r
    rw [h1] at heq
    simp only [Option.some.injEq, Prod.mk.injEq] at heq
    obtain ⟨h2, h3, _, h5⟩ := heq
    exact ⟨h2.symm, dlm, gs1, h3.symm, h5.symm⟩

theorem check_hand_reveals (p dl : Hand) (gs : GameState) (r : HandResult)
    (h : (check_hand p dl gs).2 = GameState.HandScoreScreen r) :
    (check_hand p dl gs).1.status = HandStatus.Revealed := by
  have h1 : (check_hand p dl gs).1
      = if (check_hand p dl gs).2.isScoreScreen then Hand.reveal dl else dl := rfl
  rw [h1, h]
  rfl

/-- C1: the code diverges from the claim.  With the player holding Ten+King
(value 20, not bust) and the dealer drawing into Ten+Five+Ten (value 25,
bust), the Hold branch resolves the round to DealerWin, not PlayerWin: the
mid-loop end-condition check sets PlayerWin and reveals the dealer hand, and
the unconditional check_hand call after the loop then re-enters the
value-comparison branch (a Revealed hand is not Active) where 20 < 25 gives
DealerWin. -/
theorem hold_dealer_bust_resolves_dealer_win :
    hold_action [[]]
        ⟨[⟨.Ten, .Spade⟩, ⟨.King, .Spade⟩], .Active⟩
        ⟨[⟨.Ten, .Heart⟩, ⟨.Five, .Heart⟩], .Active⟩
        [⟨.Ten, .Diamond⟩] GameState.PlayingHand
      = some (⟨[⟨.Ten, .Spade⟩, ⟨.King, .Spade⟩], .Hold⟩,
          ⟨[⟨.Ten, .Heart⟩, ⟨.Five, .Heart⟩, ⟨.Ten, .Diamond⟩], .Revealed⟩,
          [], GameState.HandScoreScreen HandResult.DealerWin) ∧
    Hand.is_bust ⟨[⟨.Ten, .Heart⟩, ⟨.Five, .Heart⟩, ⟨.Ten, .Diamond⟩], .Revealed⟩ = true ∧
    Hand.is_bust ⟨[⟨.Ten, .Spade⟩, ⟨.King, .Spade⟩], .Hold⟩ = false ∧
    Hand.count_value ⟨[⟨.Ten, .Spade⟩, ⟨.King, .Spade⟩], .Hold⟩ = 20 :=
  ⟨rfl, rfl, rfl, rfl⟩

/-- C4: one dealer policy step on an Active hand hits (appends exactly one
drawn card, staying Active) when the value is below 16 and holds (status
becomes Hold, cards and deck unchanged) when the value is 16 or more. -/
theorem do_dealer_action_policy (fresh : List Card) (h : Hand) (d : List Card)
    (hfresh : fresh.Perm NEW_DECK) (hact : h.status = HandStatus.Active) :
    (h.count_value < 16 → ∃ c d',
        Hand.do_dealer_action fresh h d
          = some (⟨h.cards ++ [c], HandStatus.Active⟩, d')) ∧
    (16 ≤ h.count_value →
        Hand.do_dealer_action fresh h d = some (⟨h.cards, HandStatus.Hold⟩, d)) := by
  constructor
  · intro hlt
    obtain ⟨c, d', hdr⟩ := draw_total fresh d (perm_new_deck_ne_nil fresh hfresh)
    refine ⟨c, d', ?_⟩
    unfold Hand.do_dealer_action
    rw [if_pos hlt]
    unfold Hand.hit
    rw [hdr, hact]
  · intro hge
    unfold Hand.do_dealer_action
    rw [if_neg (by omega)]
    rfl

theorem do_dealer_action_policy_witness :
    (Hand.count_value ⟨[⟨.Ten, .Spade⟩, ⟨.Five, .Spade⟩], .Active⟩ < 16 →
      ∃ c d', Hand.do_dealer_action NEW_DECK
          ⟨[⟨.Ten, .Spade⟩, ⟨.Five, .Spade⟩], .Active⟩ []
        = some (⟨[⟨.Ten, .Spade⟩, ⟨.Five, .Spade⟩] ++ [c], HandStatus.Active⟩, d')) ∧
    (16 ≤ Hand.count_value ⟨[⟨.Ten, .Spade⟩, ⟨.Five, .Spade⟩], .Active⟩ →
      Hand.do_dealer_action NEW_DECK ⟨[⟨.Ten, .Spade⟩, ⟨.Five, .Spade⟩], .Active⟩ []
        = some (⟨[⟨.Ten, .Spade⟩, ⟨.Five, .Spade⟩], HandStatus.Hold⟩, [])) :=
  do_dealer_action_policy NEW_DECK ⟨[⟨.Ten, .Spade⟩, ⟨.Five, .Spade⟩], .Active⟩ []
    (List.Perm.refl _) rfl

/-- C5: Deck::draw never fails when its reshuffle parameter is a shuffled
full deck: drawing 52 cards from a 52-card deck empties it, the 53rd draw
from the now-empty deck still returns a card, and in fact every draw from
any deck state succeeds — the unwrap after the automatic reshuffle is
unreachable. -/
theorem draw_never_fails (fresh d : List Card) (hfresh : fresh.Perm NEW_DECK)
    (hd : d.length = 52) :
    drawN fresh 52 d = some [] ∧
      (∃ c d', Deck.draw fresh [] = some (c, d')) ∧
      (∀ d2 : List Card, ∃ c d2', Deck.draw fresh d2 = some (c, d2')) := by
  have hf : fresh ≠ [] := perm_new_deck_ne_nil fresh hfresh
  exact ⟨drawN_length fresh 52 d hd, draw_total fresh [] hf,
    fun d2 => draw_total fresh d2 hf⟩

theorem draw_never_fails_witness : drawN NEW_DECK 52 NEW_DECK = some [] :=
  (draw_never_fails NEW_DECK NEW_DECK (List.Perm.refl _) rfl).1

/-- C9: after reveal the status is Revealed, is_active is false, and the hand
did not pass through Hold — a Revealed dealer hand counts as not Active in
the comparison clause of check_hand. -/
theorem reveal_not_active (h : Hand) :
    (Hand.reveal h).status = HandStatus.Revealed ∧
      Hand.is_active (Hand.reveal h) = false ∧
      (Hand.reveal h).status ≠ HandStatus.Hold :=
  ⟨rfl, rfl, by simp [Hand.reveal]⟩

theorem reveal_not_active_witness :
    (Hand.reveal ⟨[⟨.Ten, .Heart⟩, ⟨.Five, .Heart⟩], .Active⟩).status
        = HandStatus.Revealed ∧
      Hand.is_active (Hand.reveal ⟨[⟨.Ten, .Heart⟩, ⟨.Five, .Heart⟩], .Active⟩) = false ∧
      (Hand.reveal ⟨[⟨.Ten, .Heart⟩, ⟨.Five, .Heart⟩], .Active⟩).status
        ≠ HandStatus.Hold :=
  reveal_not_active ⟨[⟨.Ten, .Heart⟩, ⟨.Five, .Heart⟩], .Active⟩

/-- C6: on the Hit action in PlayingHand the player hand draws exactly one
card (its length grows by one) and the dealer then performs exactly one
policy step before the end condition is evaluated — the branch decomposes as
one draw into the player hand, then one do_dealer_action, then
check_hand. -/
theorem hit_then_one_dealer_step (f1 f2 : List Card) (p dl : Hand)
    (dk : List Card) (gs : GameState) (p' dl' : Hand) (dk' : List Card)
    (gs' : GameState)
    (heq : hit_action f1 f2 p dl dk gs = some (p', dl', dk', gs')) :
    ∃ c dk1 dlm dk2,
      Deck.draw f1 dk = some (c, dk1) ∧
      p' = ⟨p.cards ++ [c], p.status⟩ ∧
      p'.cards.length = p.cards.length + 1 ∧
      Hand.do_dealer_action f2 dl dk1 = some (dlm, dk2) ∧
      dk' = dk2 ∧ dl' = (check_hand p' dlm gs).1 ∧
      gs' = (check_hand p' dlm gs).2 := by
  obtain ⟨c, dk1, dlm, dk2, h1, h2, h3, h4, h5, h6⟩ :=
    hit_action_inv f1 f2 p dl dk gs p' dl' dk' gs' heq
  refine ⟨c, dk1, dlm, dk2, h1, h2, ?_, h3, h4, h5, h6⟩
  rw [h2]
  simp

theorem hit_then_one_dealer_step_witness :
    ∃ c dk1 dlm dk2,
      Deck.draw [] [⟨.Two, .Spade⟩, ⟨.Three, .Spade⟩] = some (c, dk1) ∧
      (⟨[⟨.Ten, .Spade⟩, ⟨.King, .Spade⟩, ⟨.Three, .Spade⟩], .Active⟩ : Hand)
        = ⟨[⟨.Ten, .Spade⟩, ⟨.King, .Spade⟩] ++ [c], HandStatus.Active⟩ ∧
      ([⟨.Ten, .Spade⟩, ⟨.King, .Spade⟩, ⟨.Three, .Spade⟩] : List Card).length
        = ([⟨.Ten, .Spade⟩, ⟨.King, .Spade⟩] : List Card).length + 1 ∧
      Hand.do_dealer_action [] ⟨[⟨.Ten, .Heart⟩, ⟨.Five, .Heart⟩], .Active⟩ dk1
        = some (dlm, dk2) ∧
      ([] : List Card) = dk2 ∧
      (⟨[⟨.Ten, .Heart⟩, ⟨.Five, .Heart⟩, ⟨.Two, .Spade⟩], .Revealed⟩ : Hand)
        = (check_hand ⟨[⟨.Ten, .Spade⟩, ⟨.King, .Spade⟩, ⟨.Three, .Spade⟩], .Active⟩
            dlm GameState.PlayingHand).1 ∧
      GameState.HandScoreScreen HandResult.Bust
        = (check_hand ⟨[⟨.Ten, .Spade⟩, ⟨.King, .Spade⟩, ⟨.Three, .Spade⟩], .Active⟩
            dlm GameState.PlayingHand).2 :=
  hit_then_one_dealer_step [] [] ⟨[⟨.Ten, .Spade⟩, ⟨.King, .Spade⟩], .Active⟩
    ⟨[⟨.Ten, .Heart⟩, ⟨.Five, .Heart⟩], .Active⟩
    [⟨.Two, .Spade⟩, ⟨.Three, .Spade⟩] GameState.PlayingHand
    ⟨[⟨.Ten, .Spade⟩, ⟨.King, .Spade⟩, ⟨.Three, .Spade⟩], .Active⟩
    ⟨[⟨.Ten, .Heart⟩, ⟨.Five, .Heart⟩, ⟨.Two, .Spade⟩], .Revealed⟩ []
    (GameState.HandScoreScreen HandResult.Bust) (by decide)

/-- C7: the canonical deck NEW_DECK has exactly 52 pairwise-distinct cards
covering every rank-suit pair, and every reachable deck state holds at most
52 cards, without duplicates, all drawn from the canonical 52. -/
theorem deck_invariant :
    NEW_DECK.length = 52 ∧ NEW_DECK.Nodup ∧ (∀ c : Card, c ∈ NEW_DECK) ∧
      ∀ d : List Card, DeckReach d →
        d.length ≤ 52 ∧ d.Nodup ∧ ∀ c ∈ d, c ∈ NEW_DECK := by
  have hnodup : NEW_DECK.Nodup := by decide
  refine ⟨rfl, hnodup, by decide, ?_⟩
  intro d hd
  induction hd with
  | new d2 hperm =>
    exact ⟨le_of_eq hperm.length_eq, hperm.nodup_iff.mpr hnodup,
      fun c hc => hperm.subset hc⟩
  | draw d2 fresh c d' hdr2 hperm heq ih =>
    rcases draw_inv fresh d2 c d' heq with h | ⟨hd0, h⟩
    · subst h
      have hsub := List.dropLast_sublist d2
      refine ⟨?_, List.Nodup.sublist hsub ih.2.1,
        fun c2 hc2 => ih.2.2 c2 (hsub.subset hc2)⟩
      have hl := ih.1
      rw [List.length_dropLast]
      omega
    · subst h
      have hsub := List.dropLast_sublist fresh
      have hfn : fresh.Nodup := hperm.nodup_iff.mpr hnodup
      refine ⟨?_, List.Nodup.sublist hsub hfn,
        fun c2 hc2 => hperm.subset (hsub.subset hc2)⟩
      have hlen : fresh.length = 52 := hperm.length_eq
      rw [List.length_dropLast, hlen]
      omega

theorem deck_invariant_witness :
    NEW_DECK.length ≤ 52 ∧ NEW_DECK.Nodup ∧ ∀ c ∈ NEW_DECK, c ∈ NEW_DECK :=
  deck_invariant.2.2.2 NEW_DECK (DeckReach.new NEW_DECK (List.Perm.refl _))

/-- C8: in every reachable state of the round state machine that is in
HandScoreScreen, the dealer hand's status is Revealed — every transition into
the score screen reveals the dealer hand. -/
theorem score_screen_dealer_revealed (s : RoundState) (hr : Reach s) :
    ∀ r : HandResult, s.gs = GameState.HandScoreScreen r →
      s.dealer.status = HandStatus.Revealed := by
  induction hr with
  | init d0 f1 f2 f3 f4 p dl d1 d2 hperm h1 h2 =>
    intro r hgs
    simp at hgs
  | hit s f1 f2 p dl dk gs hre hpg heq ih =>
    intro r hgs
    have hgs' : gs = GameState.HandScoreScreen r := hgs
    show dl.status = HandStatus.Revealed
    obtain ⟨c, dk1, dlm, dk2, h1, h2, h3, h4, h5, h6⟩ :=
      hit_action_inv f1 f2 s.player s.dealer s.deck s.gs p dl dk gs heq
    rw [h5]
    exact check_hand_reveals p dlm s.gs r (by rw [← h6]; exact hgs')
  | hold s fs p dl dk gs hre hpg heq ih =>
    intro r hgs
    have hgs' : gs = GameState.HandScoreScreen r := hgs
    show dl.status = HandStatus.Revealed
    obtain ⟨hp, dlm, gs1, h5, h6⟩ :=
      hold_action_inv fs s.player s.dealer s.deck s.gs p dl dk gs heq
    rw [h5]
    exact check_hand_reveals (Hand.hold s.player) dlm gs1 r (by rw [← h6]; exact hgs')
  | new_round s r2 f1 f2 f3 f4 p dl d1 d2 hre hgs2 h1 h2 =>
    intro r hgs
    simp at hgs

theorem score_screen_dealer_revealed_witness :
    (⟨[⟨.Queen, .Heart⟩, ⟨.Jack, .Heart⟩], HandStatus.Revealed⟩ : Hand).status
      = HandStatus.Revealed :=
  score_screen_dealer_revealed
    ⟨⟨[⟨.Ace, .Heart⟩, ⟨.King, .Heart⟩], .Hold⟩,
     ⟨[⟨.Queen, .Heart⟩, ⟨.Jack, .Heart⟩], .Revealed⟩,
     NEW_DECK.dropLast.dropLast.dropLast.dropLast,
     GameState.HandScoreScreen HandResult.PlayerWin⟩
    (Reach.hold
      ⟨⟨[⟨.Ace, .Heart⟩, ⟨.King, .Heart⟩], .Active⟩,
       ⟨[⟨.Queen, .Heart⟩, ⟨.Jack, .Heart⟩], .Active⟩,
       NEW_DECK.dropLast.dropLast.dropLast.dropLast, GameState.PlayingHand⟩
      [[]]
      ⟨[⟨.Ace, .Heart⟩, ⟨.King, .Heart⟩], .Hold⟩
      ⟨[⟨.Queen, .Heart⟩, ⟨.Jack, .Heart⟩], .Revealed⟩
      (NEW_DECK.dropLast.dropLast.dropLast.dropLast)
      (GameState.HandScoreScreen HandResult.PlayerWin)
      (Reach.init NEW_DECK [] [] [] []
        ⟨[⟨.Ace, .Heart⟩, ⟨.King, .Heart⟩], .Active⟩
        ⟨[⟨.Queen, .Heart⟩, ⟨.Jack, .Heart⟩], .Active⟩
        NEW_DECK.dropLast.dropLast
        (NEW_DECK.dropLast.dropLast.dropLast.dropLast)
        (List.Perm.refl _) (by decide) (by decide))
      rfl (by decide))
    HandResult.PlayerWin rfl

theorem two_card_value_bounds :
    ∀ c1 c2 : Card,
      4 ≤ (Hand.new c1 c2).count_value ∧ (Hand.new c1 c2).count_value ≤ 21 := by
  decide

/-- C10: every hand returned by new_hand has exactly two cards, status
Active, and a value between 4 and 21 inclusive, hence is never bust — a new
round always starts in a non-terminal position. -/
theorem new_hand_well_formed (f1 f2 d : List Card) (h : Hand) (d' : List Card)
    (heq : Deck.new_hand f1 f2 d = some (h, d')) :
    h.cards.length = 2 ∧ h.status = HandStatus.Active ∧
      4 ≤ h.count_value ∧ h.count_value ≤ 21 ∧ h.is_bust = false := by
  obtain ⟨c1, c2, d1, h1, h2, hh⟩ := new_hand_inv f1 f2 d h d' heq
  subst hh
  obtain ⟨hb1, hb2⟩ := two_card_value_bounds c1 c2
  refine ⟨rfl, rfl, hb1, hb2, ?_⟩
  unfold Hand.is_bust
  simp only [decide_eq_false_iff_not]
  omega

theorem new_hand_well_formed_witness :
    (Hand.new ⟨.Three, .Spade⟩ ⟨.Two, .Spade⟩).cards.length = 2 ∧
      (Hand.new ⟨.Three, .Spade⟩ ⟨.Two, .Spade⟩).status = HandStatus.Active ∧
      4 ≤ (Hand.new ⟨.Three, .Spade⟩ ⟨.Two, .Spade⟩).count_value ∧
      (Hand.new ⟨.Three, .Spade⟩ ⟨.Two, .Spade⟩).count_value ≤ 21 ∧
      (Hand.new ⟨.Three, .Spade⟩ ⟨.Two, .Spade⟩).is_bust = false :=
  new_hand_well_formed [] [] [⟨.Two, .Spade⟩, ⟨.Three, .Spade⟩]
    (Hand.new ⟨.Three, .Spade⟩ ⟨.Two, .Spade⟩) [] (by decide)

end Blackjack
